import Mathlib

/-!
Verification of the pngme chunk codec.

This file gives a shallow embedding of the core data types and operations of
the repository (src/chunk_type.rs and src/chunk.rs) and proves or refutes the
behavioural claims stated about them.

Modelling conventions:
* Rust `u8` bytes are `Nat`s; where a fact needs the byte bound we add the
  hypothesis `b < 256` explicitly.
* Rust `u32` values are `Nat`s with explicit `% 2 ^ 32` wherever the source
  performs 32-bit arithmetic that can wrap.
* A Rust function that can panic is embedded with an explicit panic outcome:
  `Option` (`none` = panic) for infallible-signature functions, and a dedicated
  `ParseResult.panic` constructor for `Chunk::try_from`, whose Rust error type
  is `String` but whose only `Err` return is the crc-mismatch message; that
  single error return is embedded as `ParseResult.crcMismatch`.
* Byte strings (`&str`, `String`) are lists of their UTF-8 bytes.
-/

namespace Pngme

/-- `u8::is_ascii_alphabetic`: between A (65) and Z (90) or a (97) and z (122). -/
def isAsciiAlphabetic (b : Nat) : Bool :=
  (65 ≤ b && b ≤ 90) || (97 ≤ b && b ≤ 122)

/-- `u8::is_ascii_uppercase`: between A (65) and Z (90). -/
def isAsciiUppercase (b : Nat) : Bool :=
  65 ≤ b && b ≤ 90

/-- `u8::is_ascii_lowercase`: between a (97) and z (122). -/
def isAsciiLowercase (b : Nat) : Bool :=
  97 ≤ b && b ≤ 122

/-- `ChunkType` from src/chunk_type.rs: a `[u8; 4]`, modelled as four bytes. -/
structure ChunkType where
  c0 : Nat
  c1 : Nat
  c2 : Nat
  c3 : Nat
deriving DecidableEq, Repr

/-- `ChunkType::bytes`: the raw 4 bytes. -/
def ChunkType.bytes (ct : ChunkType) : List Nat :=
  [ct.c0, ct.c1, ct.c2, ct.c3]

/-- `ChunkType::is_critical`: byte 0 is ASCII uppercase. -/
def ChunkType.is_critical (ct : ChunkType) : Bool :=
  isAsciiUppercase ct.c0

/-- `ChunkType::is_public`: byte 1 is ASCII uppercase. -/
def ChunkType.is_public (ct : ChunkType) : Bool :=
  isAsciiUppercase ct.c1

/-- `ChunkType::is_reserved_bit_valid`: byte 2 is ASCII uppercase. -/
def ChunkType.is_reserved_bit_valid (ct : ChunkType) : Bool :=
  isAsciiUppercase ct.c2

/-- `ChunkType::is_safe_to_copy`: byte 3 is ASCII lowercase. -/
def ChunkType.is_safe_to_copy (ct : ChunkType) : Bool :=
  isAsciiLowercase ct.c3

/-- `ChunkType::is_valid`: loops over the 4 bytes returning false on the first
non-alphabetic one, then returns `is_reserved_bit_valid`. -/
def ChunkType.is_valid (ct : ChunkType) : Bool :=
  if isAsciiAlphabetic ct.c0 && isAsciiAlphabetic ct.c1 &&
      isAsciiAlphabetic ct.c2 && isAsciiAlphabetic ct.c3 then
    ct.is_reserved_bit_valid
  else
    false

/-- `<ChunkType as TryFrom<[u8; 4]>>::try_from`: every byte must be ASCII
alphabetic.  The argument is the 4-byte array as a list; the catch-all arm
models the `try_into` conversion of a slice whose length is not 4 (its callers
in the source always reach this with exactly 4 bytes, or panic first). -/
def ChunkType.tryFromBytes : List Nat → Except String ChunkType
  | [b0, b1, b2, b3] =>
    if isAsciiAlphabetic b0 && isAsciiAlphabetic b1 &&
        isAsciiAlphabetic b2 && isAsciiAlphabetic b3 then
      Except.ok (ChunkType.mk b0 b1 b2 b3)
    else
      Except.error "ChunkType can only contain ascii alphabetical (A-Z and a-z)"
  | _ => Except.error "expected exactly four bytes"

/-- `<ChunkType as FromStr>::from_str`: the string (as UTF-8 bytes) must have
byte-length exactly 4, then its 4 bytes go through `try_from`. -/
def ChunkType.from_str (s : List Nat) : Except String ChunkType :=
  if s.length ≠ 4 then
    Except.error "ChunkType must be 4-byte long."
  else
    ChunkType.tryFromBytes [s.getD 0 0, s.getD 1 0, s.getD 2 0, s.getD 3 0]

/-- A UTF-8 continuation byte: 0x80 to 0xBF. -/
def utf8Cont (b : Nat) : Bool :=
  128 ≤ b && b ≤ 191

/-- Modelled from the spec: validity of a UTF-8 byte sequence, as checked by
the standard library `std::str::from_utf8` used by the `Display`
implementations (that function is outside this repository).  Follows the
RFC 3629 well-formedness table. -/
def utf8Valid : List Nat → Bool
  | [] => true
  | b :: rest =>
    if b ≤ 127 then
      utf8Valid rest
    else
      match rest with
      | [] => false
      | c1 :: rest1 =>
        if 194 ≤ b && b ≤ 223 then
          utf8Cont c1 && utf8Valid rest1
        else
          match rest1 with
          | [] => false
          | c2 :: rest2 =>
            if b = 224 then
              (160 ≤ c1 && c1 ≤ 191) && utf8Cont c2 && utf8Valid rest2
            else if (225 ≤ b && b ≤ 236) || b = 238 || b = 239 then
              utf8Cont c1 && utf8Cont c2 && utf8Valid rest2
            else if b = 237 then
              (128 ≤ c1 && c1 ≤ 159) && utf8Cont c2 && utf8Valid rest2
            else
              match rest2 with
              | [] => false
              | c3 :: rest3 =>
                if b = 240 then
                  (144 ≤ c1 && c1 ≤ 191) && utf8Cont c2 && utf8Cont c3 &&
                    utf8Valid rest3
                else if 241 ≤ b && b ≤ 243 then
                  utf8Cont c1 && utf8Cont c2 && utf8Cont c3 && utf8Valid rest3
                else if b = 244 then
                  (128 ≤ c1 && c1 ≤ 143) && utf8Cont c2 && utf8Cont c3 &&
                    utf8Valid rest3
                else
                  false

/-- `<ChunkType as Display>::fmt`: renders the 4 bytes as text via
`std::str::from_utf8(..).unwrap()`; the unwrap panics (`none`) exactly when
the bytes are not valid UTF-8. -/
def ChunkType.render (ct : ChunkType) : Option (List Nat) :=
  if utf8Valid ct.bytes then some ct.bytes else none

/-- `u32::MAX`. -/
def u32Max : Nat := 4294967295

/-- `u32::to_be_bytes`: big-endian base-256 digits of a 32-bit value. -/
def u32ToBeBytes (n : Nat) : List Nat :=
  [n / 16777216 % 256, n / 65536 % 256, n / 256 % 256, n % 256]

/-- `u32::from_be_bytes` on a 4-byte slice; the catch-all arm is unreachable
in all guarded uses (the source panics first when fewer than 4 bytes exist). -/
def u32FromBeBytes : List Nat → Nat
  | b0 :: b1 :: b2 :: b3 :: _ => ((b0 * 256 + b1) * 256 + b2) * 256 + b3
  | _ => 0

/-- Modelled from the spec: the reflected generator polynomial of
CRC-32/ISO-HDLC, used by the external `crc` crate constant `CRC_32_ISO_HDLC`
(the crate is a dependency, not part of this repository). -/
def crcPoly : Nat := 0xEDB88320

/-- One bit-step of the reflected CRC-32 algorithm: shift right, conditionally
xor the polynomial when the dropped bit was set. -/
def crcStep (c : Nat) : Nat :=
  if c % 2 = 1 then (c / 2) ^^^ crcPoly else c / 2

/-- `crcStep` iterated `n` times. -/
def crcSteps : Nat → Nat → Nat
  | 0, c => c
  | n + 1, c => crcSteps n (crcStep c)

/-- Absorb one message byte into the CRC state: xor it in, then run 8 bit
steps. -/
def crcByte (c b : Nat) : Nat :=
  crcSteps 8 (c ^^^ b)

/-- Fold the CRC state over a whole message. -/
def crcAux : Nat → List Nat → Nat
  | c, [] => c
  | c, b :: rest => crcAux (crcByte c b) rest

/-- Modelled from the spec: `Crc::<u32>::checksum` for CRC-32/ISO-HDLC —
initial state `0xFFFFFFFF`, reflected polynomial `0xEDB88320`, final xor
`0xFFFFFFFF`.  This is the standard CRC-32 of zlib and friends; the concrete
value tests below pin it against the checksum values recorded in the
repository tests. -/
def crc32 (m : List Nat) : Nat :=
  crcAux u32Max m ^^^ u32Max

/-- `Chunk` from src/chunk.rs: a type code and an owned data payload. -/
structure Chunk where
  chunk_type : ChunkType
  chunk_data : List Nat
deriving DecidableEq, Repr

/-- `Chunk::new`. -/
def Chunk.new (chunk_type : ChunkType) (data : List Nat) : Chunk :=
  Chunk.mk chunk_type data

/-- `Chunk::length`: `data.len()` converted to `u32`; the `expect` panics
(`none`) when the length does not fit. -/
def Chunk.length (c : Chunk) : Option Nat :=
  if c.chunk_data.length ≤ u32Max then some c.chunk_data.length else none

/-- `Chunk::crc`: CRC-32/ISO-HDLC of the type-code bytes followed by the
data. -/
def Chunk.crc (c : Chunk) : Nat :=
  crc32 (c.chunk_type.bytes ++ c.chunk_data)

/-- `Chunk::as_bytes`: big-endian length, type bytes, data, big-endian CRC;
panics (`none`) when the length does not fit in a `u32`. -/
def Chunk.as_bytes (c : Chunk) : Option (List Nat) :=
  match c.length with
  | none => none
  | some n =>
    some (u32ToBeBytes n ++ c.chunk_type.bytes ++ c.chunk_data ++
      u32ToBeBytes c.crc)

/-- Outcome of `<Chunk as TryFrom<&[u8]>>::try_from`.  `crcMismatch` is the
single `Err` return of the source (the string literal complaining that the
crc does not match); `panic` collects every panicking path (out-of-range
slice indexing, failing `try_into().expect(..)`, the explicit `panic!` on an
invalid chunk type, and — in a debug build — the `8 + data_len` overflow). -/
inductive ParseResult where
  | ok (c : Chunk)
  | crcMismatch
  | panic
deriving DecidableEq, Repr

/-- `<Chunk as TryFrom<&[u8]>>::try_from`:
reads a big-endian `u32` data length from bytes 0..4 (panicking when fewer
than 4 bytes exist), the chunk type from bytes 4..8 (panicking when fewer
than 8 bytes exist or the type bytes are not alphabetic), the data from
bytes `8..8 + data_len`, and the CRC from the entire remainder, which must be
exactly 4 bytes.  The `8 + data_len` sum is `u32` arithmetic, embedded with
its release-mode wrap `% 2 ^ 32`; when it wraps, the data slice bounds are
inverted and the source panics, which coincides with the debug-mode
overflow panic, so both build modes yield `panic` here. -/
def Chunk.tryFrom (value : List Nat) : ParseResult :=
  if 4 ≤ value.length then
    let data_len := u32FromBeBytes (value.take 4)
    if 8 ≤ value.length then
      match ChunkType.tryFromBytes ((value.drop 4).take 4) with
      | Except.error _ => ParseResult.panic
      | Except.ok chunk_type =>
        let end_of_data_index := (8 + data_len) % 2 ^ 32
        if 8 ≤ end_of_data_index ∧ end_of_data_index ≤ value.length then
          let value_vec := (value.drop 8).take (end_of_data_index - 8)
          if (value.drop end_of_data_index).length = 4 then
            let crc := u32FromBeBytes (value.drop end_of_data_index)
            let new_chunk := Chunk.mk chunk_type value_vec
            if new_chunk.crc ≠ crc then ParseResult.crcMismatch
            else ParseResult.ok new_chunk
          else ParseResult.panic
        else ParseResult.panic
    else ParseResult.panic
  else ParseResult.panic

/-- Flip bit `j` (0 ≤ j < 8) of the byte at index `k` of a byte list. -/
def flipBit (l : List Nat) (k j : Nat) : List Nat :=
  l.set k (l.getD k 0 ^^^ 2 ^ j)

/-- The UTF-8 bytes of the string literal `"RuSt"`. -/
def ruStBytes : List Nat := [82, 117, 83, 116]

/-- The `ChunkType` built from `"RuSt"`. -/
def ruStType : ChunkType := ChunkType.mk 82 117 83 116

/-- The UTF-8 bytes of the test payload
`"This is where your secret message will be!"`. -/
def secretMessage : List Nat :=
  [84, 104, 105, 115, 32, 105, 115, 32, 119, 104, 101, 114, 101, 32, 121,
   111, 117, 114, 32, 115, 101, 99, 114, 101, 116, 32, 109, 101, 115, 115,
   97, 103, 101, 32, 119, 105, 108, 108, 32, 98, 101, 33]

/-- The serialized test chunk: length field 42, type "RuSt", the secret
message payload, and its big-endian CRC 2882656334. -/
def goodChunkBytes : List Nat :=
  [0, 0, 0, 42] ++ ruStBytes ++ secretMessage ++ [171, 209, 216, 78]

/-- Whether a `Result` is `Ok` (Rust `Result::is_ok`). -/
def isOk {ε α : Type} : Except ε α → Bool
  | Except.ok _ => true
  | Except.error _ => false

deriving instance DecidableEq for Except

/-! ## Helper lemmas -/

/-- A list of ASCII bytes (each at most 127) is valid UTF-8. -/
theorem utf8Valid_ascii (l : List Nat) (h : ∀ b ∈ l, b ≤ 127) :
    utf8Valid l = true := by
  induction l with
  | nil => rfl
  | cons b rest ih =>
    have hb : b ≤ 127 := h b (List.mem_cons_self b rest)
    have hr := ih fun x hx => h x (List.mem_cons_of_mem b hx)
    rw [utf8Valid.eq_def]
    simp only [hb, if_pos]
    exact hr

/-- Big-endian decoding of four bytes stays below `2 ^ 32`. -/
theorem u32FromBeBytes_lt (b0 b1 b2 b3 : Nat) (rest : List Nat)
    (h0 : b0 < 256) (h1 : b1 < 256) (h2 : b2 < 256) (h3 : b3 < 256) :
    u32FromBeBytes (b0 :: b1 :: b2 :: b3 :: rest) < 2 ^ 32 := by
  show ((b0 * 256 + b1) * 256 + b2) * 256 + b3 < 2 ^ 32
  omega

/-- Big-endian decoding inverts big-endian encoding on 32-bit values. -/
theorem u32FromBeBytes_toBe (n : Nat) (h : n < 2 ^ 32) :
    u32FromBeBytes (u32ToBeBytes n) = n := by
  show ((n / 16777216 % 256 * 256 + n / 65536 % 256) * 256 + n / 256 % 256)
      * 256 + n % 256 = n
  omega

/-- The big-endian encoding of a `u32` has 4 bytes. -/
theorem u32ToBeBytes_length (n : Nat) : (u32ToBeBytes n).length = 4 := rfl

/-- Every byte of a big-endian `u32` encoding is a byte value. -/
theorem u32ToBeBytes_bytes (n : Nat) : ∀ b ∈ u32ToBeBytes n, b < 256 := by
  intro b hb
  simp [u32ToBeBytes] at hb
  rcases hb with rfl | rfl | rfl | rfl <;> omega

/-- Taking 4 from a list with at least 4 explicit heads. -/
theorem take_four (a0 a1 a2 a3 : Nat) (rest : List Nat) :
    (a0 :: a1 :: a2 :: a3 :: rest).take 4 = [a0, a1, a2, a3] := rfl

/-- Dropping 4 from a list with at least 4 explicit heads. -/
theorem drop_four (a0 a1 a2 a3 : Nat) (rest : List Nat) :
    (a0 :: a1 :: a2 :: a3 :: rest).drop 4 = rest := rfl

/-- Evaluation of `Chunk::try_from` on a well-shaped buffer: 4 length bytes
that decode to the data length, 4 type bytes, the data, and 4 CRC bytes.
Parsing reaches the type check and then the CRC comparison. -/
theorem tryFrom_concat (b0 b1 b2 b3 : Nat) (tb d cb : List Nat)
    (htb : tb.length = 4) (hcb : cb.length = 4)
    (hlen : u32FromBeBytes [b0, b1, b2, b3] = d.length)
    (hbound : d.length ≤ 2 ^ 32 - 9) :
    Chunk.tryFrom ([b0, b1, b2, b3] ++ tb ++ d ++ cb) =
      match ChunkType.tryFromBytes tb with
      | Except.error _ => ParseResult.panic
      | Except.ok ct =>
        if (Chunk.mk ct d).crc ≠ u32FromBeBytes cb then ParseResult.crcMismatch
        else ParseResult.ok (Chunk.mk ct d) := by
  have hv4 : ([b0, b1, b2, b3] ++ tb ++ d ++ cb).take 4 = [b0, b1, b2, b3] :=
    rfl
  have hvd4 : ([b0, b1, b2, b3] ++ tb ++ d ++ cb).drop 4 = tb ++ d ++ cb :=
    rfl
  have hvdt : (tb ++ d ++ cb).take 4 = tb := by
    rw [List.append_assoc, ← htb]
    exact List.take_left tb (d ++ cb)
  have hlength : ([b0, b1, b2, b3] ++ tb ++ d ++ cb).length =
      12 + d.length := by
    simp [List.length_append, htb, hcb]
    omega
  have hd8 : ([b0, b1, b2, b3] ++ tb ++ d ++ cb).drop 8 = d ++ cb := by
    rw [show (8 : Nat) = 4 + 4 from rfl, ← List.drop_drop, hvd4,
      List.append_assoc, ← htb]
    exact List.drop_left tb (d ++ cb)
  have hmod : (8 + d.length) % 2 ^ 32 = 8 + d.length :=
    Nat.mod_eq_of_lt (by omega)
  have hdend : ([b0, b1, b2, b3] ++ tb ++ d ++ cb).drop (8 + d.length) =
      cb := by
    rw [← List.drop_drop, hd8]
    exact List.drop_left d cb
  have hdvec : (d ++ cb).take (8 + d.length - 8) = d := by
    rw [show 8 + d.length - 8 = d.length from by omega]
    exact List.take_left d cb
  have c1 : (4 : Nat) ≤ 12 + d.length := by omega
  have c2 : (8 : Nat) ≤ 12 + d.length := by omega
  have c3 : 8 ≤ 8 + d.length ∧ 8 + d.length ≤ 12 + d.length :=
    ⟨by omega, by omega⟩
  simp only [Chunk.tryFrom, hv4, hvd4, hvdt, hlength, hlen, hmod, hd8,
    hdend, hdvec, hcb, c1, c2, c3, ite_true, eq_self_iff_true, and_self]

/-- `Chunk::try_from` panics on every input shorter than 8 bytes. -/
theorem tryFrom_short (value : List Nat) (h : value.length < 8) :
    Chunk.tryFrom value = ParseResult.panic := by
  by_cases h4 : 4 ≤ value.length
  · simp only [Chunk.tryFrom, if_pos h4,
      if_neg (by omega : ¬ 8 ≤ value.length)]
  · simp only [Chunk.tryFrom, if_neg h4]

/-- `Chunk::try_from` panics whenever the type-code bytes are rejected. -/
theorem tryFrom_badtype (value : List Nat) (e : String)
    (h : ChunkType.tryFromBytes ((value.drop 4).take 4) = Except.error e) :
    Chunk.tryFrom value = ParseResult.panic := by
  by_cases h8 : 8 ≤ value.length
  · simp only [Chunk.tryFrom, if_pos (by omega : 4 ≤ value.length),
      if_pos h8, h]
  · exact tryFrom_short value (by omega)

/-- `Chunk::try_from` panics on every input with at least 8 bytes but fewer
than `8 + L + 4`, where `L` is the declared big-endian length. -/
theorem tryFrom_truncated (value : List Nat) (hbytes : ∀ b ∈ value, b < 256)
    (h8 : 8 ≤ value.length)
    (hlt : value.length < 12 + u32FromBeBytes (value.take 4)) :
    Chunk.tryFrom value = ParseResult.panic := by
  cases hct : ChunkType.tryFromBytes ((value.drop 4).take 4) with
  | error e => exact tryFrom_badtype value e hct
  | ok ct =>
    match value, h8 with
    | a0 :: a1 :: a2 :: a3 :: rest, _ =>
      have hL : u32FromBeBytes ((a0 :: a1 :: a2 :: a3 :: rest).take 4) <
          2 ^ 32 := by
        rw [take_four]
        exact u32FromBeBytes_lt a0 a1 a2 a3 []
          (hbytes a0 (by simp)) (hbytes a1 (by simp))
          (hbytes a2 (by simp)) (hbytes a3 (by simp))
      simp only [Chunk.tryFrom,
        if_pos (by omega : 4 ≤ (a0 :: a1 :: a2 :: a3 :: rest).length),
        if_pos (by omega : 8 ≤ (a0 :: a1 :: a2 :: a3 :: rest).length), hct]
      split
      next hcase =>
        split
        next hrest4 =>
          exfalso
          rw [List.length_drop] at hrest4
          omega
        next => rfl
      next => rfl

/-- `Chunk::try_from` panics on a well-shaped buffer whose declared length
does not match the actual data length (regardless of the type bytes). -/
theorem tryFrom_badlen (b0 b1 b2 b3 : Nat) (tb d cb : List Nat)
    (htb : tb.length = 4) (hcb : cb.length = 4)
    (h0 : b0 < 256) (h1 : b1 < 256) (h2 : b2 < 256) (h3 : b3 < 256)
    (hne : u32FromBeBytes [b0, b1, b2, b3] ≠ d.length) :
    Chunk.tryFrom ([b0, b1, b2, b3] ++ tb ++ d ++ cb) = ParseResult.panic := by
  have hv4 : ([b0, b1, b2, b3] ++ tb ++ d ++ cb).take 4 = [b0, b1, b2, b3] :=
    rfl
  have hvd4 : ([b0, b1, b2, b3] ++ tb ++ d ++ cb).drop 4 = tb ++ d ++ cb :=
    rfl
  have hvdt : (tb ++ d ++ cb).take 4 = tb := by
    rw [List.append_assoc, ← htb]
    exact List.take_left tb (d ++ cb)
  have hlength : ([b0, b1, b2, b3] ++ tb ++ d ++ cb).length =
      12 + d.length := by
    simp [List.length_append, htb, hcb]
    omega
  have hL : u32FromBeBytes [b0, b1, b2, b3] < 2 ^ 32 :=
    u32FromBeBytes_lt b0 b1 b2 b3 [] h0 h1 h2 h3
  cases hct : ChunkType.tryFromBytes tb with
  | error e =>
    apply tryFrom_badtype _ e
    rw [hvd4, hvdt]
    exact hct
  | ok ct =>
    simp only [Chunk.tryFrom, hv4, hvd4, hvdt, hlength, hct,
      if_pos (by omega : (4 : Nat) ≤ 12 + d.length),
      if_pos (by omega : (8 : Nat) ≤ 12 + d.length)]
    split
    next hcase =>
      split
      next hrest4 =>
        exfalso
        rw [List.length_drop, hlength] at hrest4
        omega
      next => rfl
    next => rfl

/-- Anatomy of a successful `Chunk::try_from`: the input length is exactly
`8 + L + 4`, and the CRC stored in the trailing 4 bytes equals the CRC
computed over the parsed type and data. -/
theorem tryFrom_ok_inv (value : List Nat) (hbytes : ∀ b ∈ value, b < 256)
    (c : Chunk) (h : Chunk.tryFrom value = ParseResult.ok c) :
    value.length = 12 + u32FromBeBytes (value.take 4) ∧
    u32FromBeBytes (value.drop (8 + u32FromBeBytes (value.take 4))) =
      crc32 (c.chunk_type.bytes ++ c.chunk_data) := by
  by_cases h8 : 8 ≤ value.length
  · match value, h8 with
    | a0 :: a1 :: a2 :: a3 :: rest, _ =>
      have hL : u32FromBeBytes ((a0 :: a1 :: a2 :: a3 :: rest).take 4) <
          2 ^ 32 := by
        rw [take_four]
        exact u32FromBeBytes_lt a0 a1 a2 a3 []
          (hbytes a0 (by simp)) (hbytes a1 (by simp))
          (hbytes a2 (by simp)) (hbytes a3 (by simp))
      rw [Chunk.tryFrom] at h
      simp only [if_pos (by omega : 4 ≤ (a0 :: a1 :: a2 :: a3 :: rest).length),
        if_pos (by omega : 8 ≤ (a0 :: a1 :: a2 :: a3 :: rest).length)] at h
      cases hct : ChunkType.tryFromBytes
          (((a0 :: a1 :: a2 :: a3 :: rest).drop 4).take 4) with
      | error e =>
        simp only [hct] at h
        exact absurd h (by simp)
      | ok ct =>
        simp only [hct] at h
        split at h
        next hcase =>
          split at h
          next hrest4 =>
            split at h
            next hcrc => exact absurd h (by simp)
            next hcrc =>
              push_neg at hcrc
              have hmod : (8 + u32FromBeBytes
                  ((a0 :: a1 :: a2 :: a3 :: rest).take 4)) % 2 ^ 32 =
                  8 + u32FromBeBytes ((a0 :: a1 :: a2 :: a3 :: rest).take 4) :=
                by omega
              rw [hmod] at h hcrc
              rw [List.length_drop] at hrest4
              obtain rfl := (ParseResult.ok.injEq _ _).mp h
              exact ⟨by omega, hcrc.symm⟩
          next => exact absurd h (by simp)
        next => exact absurd h (by simp)
  · exfalso
    rw [tryFrom_short value (by omega)] at h
    exact absurd h (by simp)

/-- An ASCII alphabetic byte is a byte value. -/
theorem alpha_lt_256 (b : Nat) (h : isAsciiAlphabetic b = true) : b < 256 := by
  simp [isAsciiAlphabetic] at h
  omega

/-- The CRC polynomial is a 32-bit value. -/
theorem crcPoly_lt : crcPoly < 2 ^ 32 := by decide

/-- One CRC bit-step stays within 32 bits. -/
theorem crcStep_lt (c : Nat) (h : c < 2 ^ 32) : crcStep c < 2 ^ 32 := by
  rw [crcStep]
  split
  · exact Nat.xor_lt_two_pow (by omega) crcPoly_lt
  · omega

/-- Iterated CRC bit-steps stay within 32 bits. -/
theorem crcSteps_lt (n c : Nat) (h : c < 2 ^ 32) : crcSteps n c < 2 ^ 32 := by
  induction n generalizing c with
  | zero => exact h
  | succ k ih => exact ih (crcStep c) (crcStep_lt c h)

/-- The CRC state stays within 32 bits over any byte-valued message. -/
theorem crcAux_lt (m : List Nat) (s : Nat) (hs : s < 2 ^ 32)
    (hm : ∀ b ∈ m, b < 256) : crcAux s m < 2 ^ 32 := by
  induction m generalizing s with
  | nil => exact hs
  | cons b rest ih =>
    show crcAux (crcByte s b) rest < 2 ^ 32
    apply ih
    · rw [crcByte]
      apply crcSteps_lt
      have hb : b < 256 := hm b (by simp)
      exact Nat.xor_lt_two_pow hs (by omega)
    · intro x hx
      exact hm x (by simp [hx])

/-- The CRC-32 checksum of a byte-valued message is a 32-bit value. -/
theorem crc32_lt (m : List Nat) (hm : ∀ b ∈ m, b < 256) :
    crc32 m < 2 ^ 32 := by
  rw [crc32]
  exact Nat.xor_lt_two_pow (crcAux_lt m u32Max (by decide) hm) (by decide)


/-- Halving commutes with xor. -/
theorem xor_div_two (a b : Nat) : (a ^^^ b) / 2 = a / 2 ^^^ b / 2 := by
  apply Nat.eq_of_testBit_eq
  intro i
  rw [Nat.testBit_div_two, Nat.testBit_xor, Nat.testBit_xor,
    Nat.testBit_div_two, Nat.testBit_div_two]

/-- Parity of an xor is the sum of the parities mod 2. -/
theorem xor_mod_two (a b : Nat) : (a ^^^ b) % 2 = (a % 2 + b % 2) % 2 := by
  have h := Nat.testBit_xor a b 0
  simp only [Nat.testBit_zero] at h
  have hab := Nat.mod_two_eq_zero_or_one (a ^^^ b)
  rcases Nat.mod_two_eq_zero_or_one a with ha | ha <;>
    rcases Nat.mod_two_eq_zero_or_one b with hb | hb <;>
    simp [ha, hb] at h ⊢ <;> omega

/-- The CRC bit-step is linear over xor. -/
theorem crcStep_linear (a b : Nat) :
    crcStep (a ^^^ b) = crcStep a ^^^ crcStep b := by
  have hm := xor_mod_two a b
  have hd := xor_div_two a b
  rw [crcStep, crcStep, crcStep]
  rcases Nat.mod_two_eq_zero_or_one a with ha | ha <;>
    rcases Nat.mod_two_eq_zero_or_one b with hb | hb
  · rw [if_neg (by omega), if_neg (by omega), if_neg (by omega), hd]
  · rw [if_pos (by omega), if_neg (by omega), if_pos hb, hd,
      Nat.xor_assoc]
  · rw [if_pos (by omega), if_pos ha, if_neg (by omega), hd,
      Nat.xor_assoc, Nat.xor_assoc, Nat.xor_comm crcPoly (b / 2)]
  · rw [if_neg (by omega), if_pos ha, if_pos hb, hd, Nat.xor_assoc,
      ← Nat.xor_assoc crcPoly (b / 2) crcPoly,
      Nat.xor_comm crcPoly (b / 2), Nat.xor_assoc (b / 2) crcPoly crcPoly,
      Nat.xor_self, Nat.xor_zero]

/-- Iterated CRC bit-steps are linear over xor. -/
theorem crcSteps_linear (n a b : Nat) :
    crcSteps n (a ^^^ b) = crcSteps n a ^^^ crcSteps n b := by
  induction n generalizing a b with
  | zero => rfl
  | succ k ih =>
    show crcSteps k (crcStep (a ^^^ b)) =
      crcSteps k (crcStep a) ^^^ crcSteps k (crcStep b)
    rw [crcStep_linear, ih]

/-- Composition of iterated CRC bit-steps. -/
theorem crcSteps_add (m n c : Nat) :
    crcSteps (m + n) c = crcSteps n (crcSteps m c) := by
  induction m generalizing c with
  | zero =>
    rw [Nat.zero_add]
    rfl
  | succ k ih =>
    rw [show k + 1 + n = k + n + 1 from by omega]
    show crcSteps (k + n) (crcStep c) = crcSteps n (crcSteps (k + 1) c)
    rw [ih (crcStep c)]
    rfl

/-- The CRC bit-step has trivial kernel on 32-bit states. -/
theorem crcStep_eq_zero (c : Nat) (h : c < 2 ^ 32) (hz : crcStep c = 0) :
    c = 0 := by
  rw [crcStep] at hz
  split at hz
  · exfalso
    have hp : c / 2 = crcPoly := Nat.xor_eq_zero.mp hz
    have hv : crcPoly = 3988292384 := rfl
    omega
  · omega

/-- Iterated CRC bit-steps have trivial kernel on 32-bit states. -/
theorem crcSteps_eq_zero (n c : Nat) (h : c < 2 ^ 32)
    (hz : crcSteps n c = 0) : c = 0 := by
  induction n generalizing c with
  | zero => exact hz
  | succ k ih =>
    exact crcStep_eq_zero c h (ih (crcStep c) (crcStep_lt c h) hz)

/-- Feeding an xored-in state difference through the CRC fold: the
difference propagates as iterated bit-steps. -/
theorem crcAux_xor (m : List Nat) (s t : Nat) :
    crcAux (s ^^^ t) m = crcAux s m ^^^ crcSteps (8 * m.length) t := by
  induction m generalizing s t with
  | nil =>
    show s ^^^ t = s ^^^ crcSteps (8 * 0) t
    rfl
  | cons b rest ih =>
    show crcAux (crcByte (s ^^^ t) b) rest =
      crcAux (crcByte s b) rest ^^^ crcSteps (8 * (rest.length + 1)) t
    have h1 : crcByte (s ^^^ t) b = crcByte s b ^^^ crcSteps 8 t := by
      rw [crcByte, crcByte,
        show s ^^^ t ^^^ b = s ^^^ b ^^^ t from by
          rw [Nat.xor_assoc, Nat.xor_assoc, Nat.xor_comm t b],
        crcSteps_linear]
    rw [h1, ih, ← crcSteps_add]
    congr 2
    omega

/-- Xoring a value into one byte of the message changes the CRC fold by the
iterated bit-steps of that value, one step per remaining message bit. -/
theorem crcAux_set (m : List Nat) (s e k : Nat) (hk : k < m.length) :
    crcAux s (m.set k (m.getD k 0 ^^^ e)) =
      crcAux s m ^^^ crcSteps (8 * (m.length - k)) e := by
  induction m generalizing s k with
  | nil => simp at hk
  | cons b rest ih =>
    cases k with
    | zero =>
      show crcAux (crcByte s (b ^^^ e)) rest =
        crcAux (crcByte s b) rest ^^^
          crcSteps (8 * (rest.length + 1 - 0)) e
      have h1 : crcByte s (b ^^^ e) = crcByte s b ^^^ crcSteps 8 e := by
        rw [crcByte, crcByte, ← Nat.xor_assoc, crcSteps_linear]
      rw [h1, crcAux_xor, ← crcSteps_add]
      congr 2
      omega
    | succ k0 =>
      have hk0 : k0 < rest.length := by
        simp [List.length_cons] at hk
        omega
      show crcAux (crcByte s b) (rest.set k0 (rest.getD k0 0 ^^^ e)) =
        crcAux (crcByte s b) (b :: rest).tail ^^^
          crcSteps (8 * ((b :: rest).length - (k0 + 1))) e
      rw [ih (crcByte s b) k0 hk0]
      congr 2
      simp [List.length_cons]

/-- CRC-32 single-difference sensitivity: xoring a nonzero 32-bit value
into any one byte of a message always changes the checksum. -/
theorem crc32_flip_ne (m : List Nat) (k e : Nat) (hk : k < m.length)
    (he : e ≠ 0) (helt : e < 2 ^ 32) :
    crc32 (m.set k (m.getD k 0 ^^^ e)) ≠ crc32 m := by
  intro heq
  rw [crc32, crc32, crcAux_set m u32Max e k hk] at heq
  have h2 : crcAux u32Max m ^^^ crcSteps (8 * (m.length - k)) e =
      crcAux u32Max m := Nat.xor_left_inj.mp heq
  have h3 : crcSteps (8 * (m.length - k)) e = 0 :=
    Nat.xor_right_inj.mp (h2.trans (Nat.xor_zero _).symm)
  exact he (crcSteps_eq_zero _ e helt h3)

/-- A nonzero xor changes the value. -/
theorem xor_ne_self (x t : Nat) (ht : t ≠ 0) : x ^^^ t ≠ x := by
  intro h
  exact ht (Nat.xor_right_inj.mp (h.trans (Nat.xor_zero x).symm))

/-- Xoring a low bit into a byte value keeps it a byte value. -/
theorem xor_bit_lt_256 (x j : Nat) (hx : x < 256) (hj : j < 8) :
    x ^^^ 2 ^ j < 256 := by
  have h2 : (2 : Nat) ^ j < 2 ^ 8 := Nat.pow_lt_pow_right (by omega) hj
  have h3 : x < 2 ^ 8 := by omega
  have h4 := Nat.xor_lt_two_pow h3 h2
  omega

/-- Big-endian 4-byte decoding is injective on byte values. -/
theorem u32FromBeBytes_inj4 (a0 a1 a2 a3 b0 b1 b2 b3 : Nat)
    (ha0 : a0 < 256) (ha1 : a1 < 256) (ha2 : a2 < 256) (ha3 : a3 < 256)
    (hb0 : b0 < 256) (hb1 : b1 < 256) (hb2 : b2 < 256) (hb3 : b3 < 256)
    (h : u32FromBeBytes [a0, a1, a2, a3] = u32FromBeBytes [b0, b1, b2, b3]) :
    a0 = b0 ∧ a1 = b1 ∧ a2 = b2 ∧ a3 = b3 := by
  have h2 : ((a0 * 256 + a1) * 256 + a2) * 256 + a3 =
      ((b0 * 256 + b1) * 256 + b2) * 256 + b3 := h
  omega

/-- Flipping a bit inside the left part of an appended list. -/
theorem flipBit_append_left (s t : List Nat) (k j : Nat)
    (hk : k < s.length) :
    flipBit (s ++ t) k j = flipBit s k j ++ t := by
  rw [flipBit, flipBit, List.set_append, if_pos hk,
    List.getD_append s t 0 k hk]

/-- Flipping a bit inside the right part of an appended list. -/
theorem flipBit_append_right (s t : List Nat) (k j : Nat)
    (hk : s.length ≤ k) :
    flipBit (s ++ t) k j = s ++ flipBit t (k - s.length) j := by
  rw [flipBit, flipBit, List.set_append, if_neg (by omega),
    List.getD_append_right s t 0 k hk]


/-- Taking 4 elements from an append whose left part has 4 elements. -/
theorem take_four_of_len (s t : List Nat) (hs : s.length = 4) :
    (s ++ t).take 4 = s := by
  rw [← hs]
  exact List.take_left s t

/-- Setting an element past a 4-element left part of an append. -/
theorem set_append_right_four (s t : List Nat) (hs : s.length = 4)
    (i : Nat) (x : Nat) : (s ++ t).set (4 + i) x = s ++ t.set i x := by
  rw [List.set_append, if_neg (by omega),
    show 4 + i - s.length = i from by omega]

/-- Reading an element past a 4-element left part of an append. -/
theorem getD_append_right_four (s t : List Nat) (hs : s.length = 4)
    (i : Nat) : (s ++ t).getD (4 + i) 0 = t.getD i 0 := by
  rw [List.getD_append_right s t 0 (4 + i) (by omega),
    show 4 + i - s.length = i from by omega]

/-- A `ChunkType` whose bytes are all alphabetic reconstructs itself through
`try_from`. -/
theorem tryFromBytes_of_alpha (ct : ChunkType)
    (halpha : ct.bytes.all isAsciiAlphabetic = true) :
    ChunkType.tryFromBytes ct.bytes = Except.ok ct := by
  have h4 : isAsciiAlphabetic ct.c0 = true ∧
      isAsciiAlphabetic ct.c1 = true ∧ isAsciiAlphabetic ct.c2 = true ∧
      isAsciiAlphabetic ct.c3 = true := by
    simpa [ChunkType.bytes, List.all_cons] using halpha
  obtain ⟨h0, h1, h2, h3⟩ := h4
  show ChunkType.tryFromBytes [ct.c0, ct.c1, ct.c2, ct.c3] = Except.ok ct
  rw [ChunkType.tryFromBytes, if_pos (by simp [h0, h1, h2, h3])]

/-- A successful `ChunkType::try_from` returns exactly the bytes it was
given. -/
theorem tryFromBytes_ok_bytes (l : List Nat) (ct : ChunkType)
    (h : ChunkType.tryFromBytes l = Except.ok ct) : ct.bytes = l := by
  match l, h with
  | [b0, b1, b2, b3], h =>
    rw [ChunkType.tryFromBytes] at h
    split at h
    · injection h with h2
      rw [← h2]
      rfl
    · exact absurd h (by simp)

/-- Flipping any single bit of the 4-byte length field of a well-shaped
serialized chunk makes `Chunk::try_from` panic: the declared length no
longer matches the remainder of the buffer. -/
theorem tryFrom_flip_len (l0 l1 l2 l3 : Nat) (tb d cb : List Nat)
    (htb : tb.length = 4) (hcb : cb.length = 4)
    (h0 : l0 < 256) (h1 : l1 < 256) (h2 : l2 < 256) (h3 : l3 < 256)
    (hlen : u32FromBeBytes [l0, l1, l2, l3] = d.length)
    (k j : Nat) (hk : k < 4) (hj : j < 8) :
    Chunk.tryFrom (flipBit ([l0, l1, l2, l3] ++ tb ++ d ++ cb) k j) =
      ParseResult.panic := by
  have hflip : flipBit ([l0, l1, l2, l3] ++ tb ++ d ++ cb) k j =
      flipBit [l0, l1, l2, l3] k j ++ tb ++ d ++ cb := by
    rw [flipBit_append_left _ cb k j
        (by simp [List.length_append, htb]; omega),
      flipBit_append_left _ d k j (by simp [List.length_append, htb]; omega),
      flipBit_append_left _ tb k j
        (by simp only [List.length_cons, List.length_nil]; omega)]
  rw [hflip]
  have hpow : (2 : Nat) ^ j ≠ 0 := Nat.pos_iff_ne_zero.mp (Nat.pos_pow_of_pos j (by omega))
  interval_cases k
  · rw [show flipBit [l0, l1, l2, l3] 0 j = [l0 ^^^ 2 ^ j, l1, l2, l3]
      from rfl]
    refine tryFrom_badlen _ _ _ _ tb d cb htb hcb
      (xor_bit_lt_256 l0 j h0 hj) h1 h2 h3 ?_
    intro heq
    rw [← hlen] at heq
    obtain ⟨he, -, -, -⟩ := u32FromBeBytes_inj4 _ _ _ _ _ _ _ _
      (xor_bit_lt_256 l0 j h0 hj) h1 h2 h3 h0 h1 h2 h3 heq
    exact xor_ne_self l0 (2 ^ j) hpow he
  · rw [show flipBit [l0, l1, l2, l3] 1 j = [l0, l1 ^^^ 2 ^ j, l2, l3]
      from rfl]
    refine tryFrom_badlen _ _ _ _ tb d cb htb hcb
      h0 (xor_bit_lt_256 l1 j h1 hj) h2 h3 ?_
    intro heq
    rw [← hlen] at heq
    obtain ⟨-, he, -, -⟩ := u32FromBeBytes_inj4 _ _ _ _ _ _ _ _
      h0 (xor_bit_lt_256 l1 j h1 hj) h2 h3 h0 h1 h2 h3 heq
    exact xor_ne_self l1 (2 ^ j) hpow he
  · rw [show flipBit [l0, l1, l2, l3] 2 j = [l0, l1, l2 ^^^ 2 ^ j, l3]
      from rfl]
    refine tryFrom_badlen _ _ _ _ tb d cb htb hcb
      h0 h1 (xor_bit_lt_256 l2 j h2 hj) h3 ?_
    intro heq
    rw [← hlen] at heq
    obtain ⟨-, -, he, -⟩ := u32FromBeBytes_inj4 _ _ _ _ _ _ _ _
      h0 h1 (xor_bit_lt_256 l2 j h2 hj) h3 h0 h1 h2 h3 heq
    exact xor_ne_self l2 (2 ^ j) hpow he
  · rw [show flipBit [l0, l1, l2, l3] 3 j = [l0, l1, l2, l3 ^^^ 2 ^ j]
      from rfl]
    refine tryFrom_badlen _ _ _ _ tb d cb htb hcb
      h0 h1 h2 (xor_bit_lt_256 l3 j h3 hj) ?_
    intro heq
    rw [← hlen] at heq
    obtain ⟨-, -, -, he⟩ := u32FromBeBytes_inj4 _ _ _ _ _ _ _ _
      h0 h1 h2 (xor_bit_lt_256 l3 j h3 hj) h0 h1 h2 h3 heq
    exact xor_ne_self l3 (2 ^ j) hpow he

/-- Flipping any single bit of the 4-byte type-code field of a well-shaped
serialized chunk: either the flipped byte is no longer alphabetic and the
parser panics, or the type still parses and the CRC comparison fails. -/
theorem tryFrom_flip_type (l0 l1 l2 l3 : Nat) (ct : ChunkType)
    (d cb : List Nat) (hcb : cb.length = 4)
    (hlen : u32FromBeBytes [l0, l1, l2, l3] = d.length)
    (hbound : d.length ≤ 2 ^ 32 - 9)
    (hcbval : u32FromBeBytes cb = crc32 (ct.bytes ++ d))
    (i j : Nat) (hi : i < 4) (hj : j < 8) :
    Chunk.tryFrom ([l0, l1, l2, l3] ++ flipBit ct.bytes i j ++ d ++ cb) =
        ParseResult.crcMismatch ∨
      Chunk.tryFrom ([l0, l1, l2, l3] ++ flipBit ct.bytes i j ++ d ++ cb) =
        ParseResult.panic := by
  have htb : (flipBit ct.bytes i j).length = 4 := by
    rw [flipBit, List.length_set]
    rfl
  have hpow : (2 : Nat) ^ j ≠ 0 :=
    Nat.pos_iff_ne_zero.mp (Nat.pos_pow_of_pos j (by omega))
  have hpowlt : (2 : Nat) ^ j < 2 ^ 32 :=
    Nat.pow_lt_pow_right (by omega) (by omega)
  have hi4 : i < ct.bytes.length := by
    show i < 4
    omega
  cases hct : ChunkType.tryFromBytes (flipBit ct.bytes i j) with
  | error e =>
    right
    apply tryFrom_badtype _ e
    rw [show (([l0, l1, l2, l3] ++ flipBit ct.bytes i j ++ d ++ cb).drop 4)
        = flipBit ct.bytes i j ++ d ++ cb from rfl,
      List.append_assoc, take_four_of_len _ _ htb]
    exact hct
  | ok ct2 =>
    left
    rw [tryFrom_concat l0 l1 l2 l3 (flipBit ct.bytes i j) d cb htb hcb
      hlen hbound]
    simp only [hct]
    have hset : (ct.bytes ++ d).set i ((ct.bytes ++ d).getD i 0 ^^^ 2 ^ j) =
        flipBit ct.bytes i j ++ d := by
      rw [List.set_append, if_pos hi4, List.getD_append _ _ _ i hi4, flipBit]
    have hcond : (Chunk.mk ct2 d).crc ≠ u32FromBeBytes cb := by
      show crc32 (ct2.bytes ++ d) ≠ u32FromBeBytes cb
      rw [hcbval, tryFromBytes_ok_bytes _ _ hct, ← hset]
      exact crc32_flip_ne (ct.bytes ++ d) i (2 ^ j)
        (by rw [List.length_append]; omega) hpow hpowlt
    rw [if_pos hcond]

/-- Flipping any single bit of the data region of a well-shaped serialized
chunk: the type and length still parse, and the CRC comparison fails. -/
theorem tryFrom_flip_data (l0 l1 l2 l3 : Nat) (ct : ChunkType)
    (d cb : List Nat) (hcb : cb.length = 4)
    (halpha : ct.bytes.all isAsciiAlphabetic = true)
    (hlen : u32FromBeBytes [l0, l1, l2, l3] = d.length)
    (hbound : d.length ≤ 2 ^ 32 - 9)
    (hcbval : u32FromBeBytes cb = crc32 (ct.bytes ++ d))
    (i j : Nat) (hi : i < d.length) (hj : j < 8) :
    Chunk.tryFrom ([l0, l1, l2, l3] ++ ct.bytes ++ flipBit d i j ++ cb) =
      ParseResult.crcMismatch := by
  have hpow : (2 : Nat) ^ j ≠ 0 :=
    Nat.pos_iff_ne_zero.mp (Nat.pos_pow_of_pos j (by omega))
  have hpowlt : (2 : Nat) ^ j < 2 ^ 32 :=
    Nat.pow_lt_pow_right (by omega) (by omega)
  have hlen2 : u32FromBeBytes [l0, l1, l2, l3] = (flipBit d i j).length := by
    rw [hlen, flipBit, List.length_set]
  have hbound2 : (flipBit d i j).length ≤ 2 ^ 32 - 9 := by
    rw [flipBit, List.length_set]
    exact hbound
  rw [tryFrom_concat l0 l1 l2 l3 ct.bytes (flipBit d i j) cb rfl hcb
    hlen2 hbound2]
  simp only [tryFromBytes_of_alpha ct halpha]
  have hset : (ct.bytes ++ d).set (4 + i)
      ((ct.bytes ++ d).getD (4 + i) 0 ^^^ 2 ^ j) =
      ct.bytes ++ flipBit d i j := by
    rw [getD_append_right_four ct.bytes d rfl i,
      set_append_right_four ct.bytes d rfl i, flipBit]
  have hcond : (Chunk.mk ct (flipBit d i j)).crc ≠ u32FromBeBytes cb := by
    show crc32 (ct.bytes ++ flipBit d i j) ≠ u32FromBeBytes cb
    rw [hcbval, ← hset]
    exact crc32_flip_ne (ct.bytes ++ d) (4 + i) (2 ^ j)
      (by rw [List.length_append]; show 4 + i < 4 + d.length; omega)
      hpow hpowlt
  rw [if_pos hcond]


/-- Bit flip past a 4-element left part of an append. -/
theorem flipBit_append_right4 (s t : List Nat) (k j : Nat)
    (hs : s.length = 4) (hk : 4 ≤ k) :
    flipBit (s ++ t) k j = s ++ flipBit t (k - 4) j := by
  rw [flipBit_append_right s t k j (by omega), hs]

/-- Bit flip past an 8-element left part of an append. -/
theorem flipBit_append_right8 (s t : List Nat) (k j : Nat)
    (hs : s.length = 8) (hk : 8 ≤ k) :
    flipBit (s ++ t) k j = s ++ flipBit t (k - 8) j := by
  rw [flipBit_append_right s t k j (by omega), hs]

/-- When the declared length is so large that the `u32` sum `8 + data_len`
overflows, `Chunk::try_from` panics: in a release build the wrapped
data-slice end index falls below 8 and the slice bounds are inverted (in a
debug build the addition itself panics). -/
theorem tryFrom_overflow (l0 l1 l2 l3 : Nat) (tb d cb : List Nat)
    (htb : tb.length = 4)
    (hover : 2 ^ 32 ≤ 8 + u32FromBeBytes [l0, l1, l2, l3])
    (hlt : u32FromBeBytes [l0, l1, l2, l3] < 2 ^ 32) :
    Chunk.tryFrom ([l0, l1, l2, l3] ++ tb ++ d ++ cb) =
      ParseResult.panic := by
  have hv4 : ([l0, l1, l2, l3] ++ tb ++ d ++ cb).take 4 = [l0, l1, l2, l3] :=
    rfl
  have hvd4 : ([l0, l1, l2, l3] ++ tb ++ d ++ cb).drop 4 = tb ++ d ++ cb :=
    rfl
  have hvdt : (tb ++ d ++ cb).take 4 = tb := by
    rw [List.append_assoc]
    exact take_four_of_len tb (d ++ cb) htb
  have hlength : 8 ≤ ([l0, l1, l2, l3] ++ tb ++ d ++ cb).length := by
    simp [List.length_append, htb]
  cases hct : ChunkType.tryFromBytes tb with
  | error e =>
    apply tryFrom_badtype _ e
    rw [hvd4, hvdt]
    exact hct
  | ok ct =>
    simp only [Chunk.tryFrom, hv4, hvd4, hvdt, hct,
      if_pos (by omega : 4 ≤ ([l0, l1, l2, l3] ++ tb ++ d ++ cb).length),
      if_pos hlength]
    split
    next hcase =>
      exfalso
      have h1 := hcase.1
      omega
    next => rfl


/-! ## Claim theorems -/

/-- C8: the type code built from "RuSt" is critical (R uppercase), not
public (u lowercase), reserved-bit valid (S uppercase) and safe to copy
(t lowercase). -/
theorem C8_case_flags :
    ChunkType.from_str ruStBytes = Except.ok ruStType ∧
    ruStType.is_critical = true ∧
    ruStType.is_public = false ∧
    ruStType.is_reserved_bit_valid = true ∧
    ruStType.is_safe_to_copy = true := by
  decide

/-- C7 counterexample: the payload "This is where your secret message will
be!" has 42 bytes, not 44, so the serialized length field is 0x0000002A and
not 0x0000002C as the claim states. -/
theorem C7_counterexample :
    secretMessage.length = 42 ∧
    ((Chunk.mk ruStType secretMessage).as_bytes).map (List.take 4) =
      some [0, 0, 0, 42] ∧
    ((Chunk.mk ruStType secretMessage).as_bytes).map (List.take 4) ≠
      some [0, 0, 0, 44] := by
  decide

set_option maxRecDepth 100000 in
/-- C7 (amended): the chunk with type "RuSt" and the 42-byte payload "This
is where your secret message will be!" serializes with length field 42
(0x0000002A), and the CRC-32/ISO-HDLC over the type-code bytes followed by
the payload is the fixed value 2882656334, the value recorded in the
repository tests. -/
theorem C7_concrete_scenario :
    secretMessage.length = 42 ∧
    (Chunk.mk ruStType secretMessage).as_bytes =
      some ([0, 0, 0, 42] ++ ruStBytes ++ secretMessage ++
        [171, 209, 216, 78]) ∧
    crc32 (ruStBytes ++ secretMessage) = 2882656334 ∧
    u32ToBeBytes 2882656334 = [171, 209, 216, 78] := by
  decide

/-- C5: `ChunkType::from_str` succeeds exactly on byte strings of length 4
whose bytes are all ASCII alphabetic; "RuSt" succeeds, "Ru1t" fails, and
"Rust" succeeds but is not `is_valid` (byte 2 is lowercase). -/
theorem C5_from_str_ok_iff :
    (∀ s : List Nat,
      isOk (ChunkType.from_str s) = true ↔
        (s.length = 4 ∧ s.all isAsciiAlphabetic = true)) ∧
    isOk (ChunkType.from_str ruStBytes) = true ∧
    isOk (ChunkType.from_str [82, 117, 49, 116]) = false ∧
    ChunkType.from_str [82, 117, 115, 116] =
      Except.ok (ChunkType.mk 82 117 115 116) ∧
    (ChunkType.mk 82 117 115 116).is_valid = false := by
  refine ⟨?_, by decide, by decide, by decide, by decide⟩
  intro s
  match s with
  | [] => simp [ChunkType.from_str, isOk]
  | [a] => simp [ChunkType.from_str, isOk]
  | [a, b] => simp [ChunkType.from_str, isOk]
  | [a, b, c] => simp [ChunkType.from_str, isOk]
  | [a, b, c, d] =>
    have hgd : ChunkType.from_str [a, b, c, d] =
        ChunkType.tryFromBytes [a, b, c, d] := by
      simp [ChunkType.from_str]
    have hcond : ((isAsciiAlphabetic a && isAsciiAlphabetic b &&
        isAsciiAlphabetic c && isAsciiAlphabetic d) = true) ↔
        ([a, b, c, d].all isAsciiAlphabetic = true) := by
      simp [List.all_cons]
      tauto
    rw [hgd, ChunkType.tryFromBytes]
    by_cases h : (isAsciiAlphabetic a && isAsciiAlphabetic b &&
        isAsciiAlphabetic c && isAsciiAlphabetic d) = true
    · rw [if_pos h]
      simp [isOk, hcond.mp h]
    · rw [if_neg h]
      have hna : ¬ ([a, b, c, d].all isAsciiAlphabetic = true) :=
        fun hh => h (hcond.mpr hh)
      simp [isOk, hna]
  | a :: b :: c :: d :: e :: rest =>
    have hlen : (a :: b :: c :: d :: e :: rest).length ≠ 4 := by
      simp [List.length_cons]
    simp [ChunkType.from_str, hlen, isOk]

/-- C5 witness: the characterization applied to the concrete string
"RuSt". -/
theorem C5_witness : isOk (ChunkType.from_str ruStBytes) = true :=
  (C5_from_str_ok_iff.1 ruStBytes).mpr (by decide)

/-- C9: every `ChunkType` obtainable from `try_from` on 4 bytes or from
`from_str` has all 4 bytes ASCII alphabetic; consequently `is_valid` agrees
with `is_reserved_bit_valid` on it, and the `Display` rendering succeeds and
returns exactly its 4 bytes. -/
theorem C9_constructed_invariant :
    (∀ (l : List Nat) (ct : ChunkType),
      ChunkType.tryFromBytes l = Except.ok ct →
        ct.bytes.all isAsciiAlphabetic = true ∧
        ct.is_valid = ct.is_reserved_bit_valid ∧
        ct.render = some ct.bytes) ∧
    (∀ (s : List Nat) (ct : ChunkType),
      ChunkType.from_str s = Except.ok ct →
        ct.bytes.all isAsciiAlphabetic = true ∧
        ct.is_valid = ct.is_reserved_bit_valid ∧
        ct.render = some ct.bytes) := by
  have key : ∀ (l : List Nat) (ct : ChunkType),
      ChunkType.tryFromBytes l = Except.ok ct →
        ct.bytes.all isAsciiAlphabetic = true ∧
        ct.is_valid = ct.is_reserved_bit_valid ∧
        ct.render = some ct.bytes := by
    intro l ct h
    match l, h with
    | [b0, b1, b2, b3], h =>
      by_cases hok : (isAsciiAlphabetic b0 && isAsciiAlphabetic b1 &&
          isAsciiAlphabetic b2 && isAsciiAlphabetic b3) = true
      · rw [ChunkType.tryFromBytes, if_pos hok] at h
        obtain rfl : ChunkType.mk b0 b1 b2 b3 = ct := by
          injection h
        rw [Bool.and_eq_true, Bool.and_eq_true, Bool.and_eq_true] at hok
        obtain ⟨⟨⟨h0, h1⟩, h2⟩, h3⟩ := hok
        have halpha : ∀ b : Nat, isAsciiAlphabetic b = true → b ≤ 127 := by
          intro b hb
          simp [isAsciiAlphabetic] at hb
          omega
        refine ⟨?_, ?_, ?_⟩
        · simp [ChunkType.bytes, h0, h1, h2, h3]
        · simp [ChunkType.is_valid, h0, h1, h2, h3]
        · have hb : ∀ b ∈ (ChunkType.mk b0 b1 b2 b3).bytes, b ≤ 127 := by
            simp only [ChunkType.bytes, List.mem_cons, List.not_mem_nil,
              or_false, forall_eq_or_imp, forall_eq]
            exact ⟨halpha _ h0, halpha _ h1, halpha _ h2, halpha _ h3⟩
          simp [ChunkType.render, utf8Valid_ascii _ hb]
      · rw [ChunkType.tryFromBytes, if_neg hok] at h
        exact absurd h (by simp)
  refine ⟨key, ?_⟩
  intro s ct h
  rw [ChunkType.from_str] at h
  by_cases hlen : s.length ≠ 4
  · rw [if_pos hlen] at h
    exact absurd h (by simp)
  · rw [if_neg hlen] at h
    exact key _ _ h

/-- C9 witness: the invariant applied to the concrete bytes of "RuSt". -/
theorem C9_witness :
    ruStType.bytes.all isAsciiAlphabetic = true ∧
    ruStType.is_valid = ruStType.is_reserved_bit_valid ∧
    ruStType.render = some ruStType.bytes :=
  C9_constructed_invariant.1 ruStBytes ruStType (by decide)

/-- C3: `Chunk::as_bytes` is exactly the 4-byte big-endian data length,
then the 4 type-code bytes, then the raw data, then the 4-byte big-endian
CRC-32/ISO-HDLC of the type bytes followed by the data — nothing else.
The hypothesis is the data-model constraint that the payload length fits in
a `u32` (otherwise `length()` panics). -/
theorem C3_as_bytes_layout (c : Chunk) (h : c.chunk_data.length ≤ u32Max) :
    c.as_bytes = some (u32ToBeBytes c.chunk_data.length ++
      c.chunk_type.bytes ++ c.chunk_data ++
      u32ToBeBytes (crc32 (c.chunk_type.bytes ++ c.chunk_data))) := by
  simp [Chunk.as_bytes, Chunk.length, Chunk.crc, h]

/-- C3 witness: the layout evaluated on the concrete test chunk. -/
theorem C3_witness :
    (Chunk.mk ruStType secretMessage).as_bytes =
      some (u32ToBeBytes secretMessage.length ++ ruStType.bytes ++
        secretMessage ++
        u32ToBeBytes (crc32 (ruStType.bytes ++ secretMessage))) :=
  C3_as_bytes_layout (Chunk.mk ruStType secretMessage) (by decide)

/-- C10: a successful `Chunk::try_from` consumes exactly `8 + L + 4` bytes:
whenever parsing returns a chunk, the input length equals
`12 + L` for the declared big-endian length `L`; any extra trailing bytes
make the trailing-CRC conversion panic instead. -/
theorem C10_exact_consumed_length (value : List Nat)
    (hbytes : ∀ b ∈ value, b < 256) (c : Chunk)
    (h : Chunk.tryFrom value = ParseResult.ok c) :
    value.length = 12 + u32FromBeBytes (value.take 4) :=
  (tryFrom_ok_inv value hbytes c h).1

set_option maxRecDepth 100000 in
/-- C10 witness: the exact-length law applied to the concrete serialized
test chunk (54 = 8 + 42 + 4 bytes). -/
theorem C10_witness :
    goodChunkBytes.length = 12 + u32FromBeBytes (goodChunkBytes.take 4) :=
  C10_exact_consumed_length goodChunkBytes (by decide)
    (Chunk.mk ruStType secretMessage) (by decide)

/-- C2: parsing succeeds only when the trailing embedded big-endian CRC
field equals the CRC-32/ISO-HDLC freshly computed over the type-code bytes
concatenated with the data; and on a well-shaped input whose embedded CRC
differs from the computed one, parsing returns the crc-mismatch error, never
a chunk. -/
theorem C2_crc_gate :
    (∀ (value : List Nat) (c : Chunk), (∀ b ∈ value, b < 256) →
      Chunk.tryFrom value = ParseResult.ok c →
      u32FromBeBytes (value.drop (8 + u32FromBeBytes (value.take 4))) =
        crc32 (c.chunk_type.bytes ++ c.chunk_data)) ∧
    (∀ (b0 b1 b2 b3 : Nat) (tb d cb : List Nat) (ct : ChunkType),
      tb.length = 4 → cb.length = 4 →
      u32FromBeBytes [b0, b1, b2, b3] = d.length → d.length ≤ 2 ^ 32 - 9 →
      ChunkType.tryFromBytes tb = Except.ok ct →
      crc32 (ct.bytes ++ d) ≠ u32FromBeBytes cb →
      Chunk.tryFrom ([b0, b1, b2, b3] ++ tb ++ d ++ cb) =
        ParseResult.crcMismatch) := by
  constructor
  · intro value c hb h
    exact (tryFrom_ok_inv value hb c h).2
  · intro b0 b1 b2 b3 tb d cb ct htb hcb hlen hbound hct hne
    rw [tryFrom_concat b0 b1 b2 b3 tb d cb htb hcb hlen hbound]
    simp only [hct]
    have hcond : (Chunk.mk ct d).crc ≠ u32FromBeBytes cb := hne
    rw [if_pos hcond]

set_option maxRecDepth 100000 in
/-- C2 witness: the repository test input with the wrong CRC 2882656333
(one less than the real checksum) is rejected with the crc-mismatch error. -/
theorem C2_witness :
    Chunk.tryFrom ([0, 0, 0, 42] ++ ruStBytes ++ secretMessage ++
      [171, 209, 216, 77]) = ParseResult.crcMismatch :=
  C2_crc_gate.2 0 0 0 42 ruStBytes secretMessage [171, 209, 216, 77]
    ruStType (by decide) (by decide) (by decide) (by decide) (by decide)
    (by decide)

/-- C4 counterexample: parsing does crash.  The empty input makes the
length-field slicing panic (the claim promises a Truncated error), and a
12-byte input with type bytes "Ru1t" makes the explicit `panic!` on the
propagated type-code error fire (the claim promises an InvalidTypeCode
error return). -/
theorem C4_counterexample :
    Chunk.tryFrom [] = ParseResult.panic ∧
    Chunk.tryFrom [0, 0, 0, 0, 82, 117, 49, 116, 0, 0, 0, 0] =
      ParseResult.panic := by
  decide

/-- C4 (amended): malformed inputs never yield a chunk, but the failure
mode is a panic, not an error return: inputs shorter than 8 bytes panic,
inputs whose type-code bytes are rejected panic, and inputs with at least 8
bytes but fewer than `8 + L + 4` panic.  Only the CRC comparison produces
an error return. -/
theorem C4_failure_modes (value : List Nat) (hbytes : ∀ b ∈ value, b < 256) :
    (value.length < 8 → Chunk.tryFrom value = ParseResult.panic) ∧
    (∀ e : String,
      ChunkType.tryFromBytes ((value.drop 4).take 4) = Except.error e →
      Chunk.tryFrom value = ParseResult.panic) ∧
    (8 ≤ value.length →
      value.length < 12 + u32FromBeBytes (value.take 4) →
      Chunk.tryFrom value = ParseResult.panic) :=
  ⟨fun h => tryFrom_short value h,
   fun e he => tryFrom_badtype value e he,
   fun h8 hlt => tryFrom_truncated value hbytes h8 hlt⟩

/-- C4 witness: an 8-byte input that declares 42 data bytes but carries
none panics. -/
theorem C4_witness :
    Chunk.tryFrom [0, 0, 0, 42, 82, 117, 83, 116] = ParseResult.panic :=
  (C4_failure_modes [0, 0, 0, 42, 82, 117, 83, 116] (by decide)).2.2
    (by decide) (by decide)

/-- C1 (amended): the round trip holds for every chunk with an
all-alphabetic type code and a data payload of at most `2 ^ 32 - 9` bytes:
serialization succeeds and parsing the serialized bytes returns the same
chunk (same type code, data, and hence CRC).  For lengths within the last 8
values of the `u32` range the `8 + data_len` addition in the parser
overflows and the parse panics instead. -/
theorem C1_round_trip (ct : ChunkType) (data : List Nat)
    (halpha : ct.bytes.all isAsciiAlphabetic = true)
    (hdata : ∀ b ∈ data, b < 256)
    (hbound : data.length ≤ 2 ^ 32 - 9) :
    (Chunk.new ct data).as_bytes.isSome = true ∧
    ∀ bs : List Nat, (Chunk.new ct data).as_bytes = some bs →
      Chunk.tryFrom bs = ParseResult.ok (Chunk.new ct data) := by
  have hlen_le : data.length ≤ u32Max := by
    show data.length ≤ 4294967295
    omega
  have halpha4 : isAsciiAlphabetic ct.c0 = true ∧
      isAsciiAlphabetic ct.c1 = true ∧ isAsciiAlphabetic ct.c2 = true ∧
      isAsciiAlphabetic ct.c3 = true := by
    simpa [ChunkType.bytes, List.all_cons] using halpha
  obtain ⟨h0, h1, h2, h3⟩ := halpha4
  have hmem : ∀ b ∈ ct.bytes ++ data, b < 256 := by
    intro b hb
    rcases List.mem_append.mp hb with hb | hb
    · simp [ChunkType.bytes] at hb
      rcases hb with rfl | rfl | rfl | rfl
      · exact alpha_lt_256 _ h0
      · exact alpha_lt_256 _ h1
      · exact alpha_lt_256 _ h2
      · exact alpha_lt_256 _ h3
    · exact hdata b hb
  have hbytes_eq : (Chunk.new ct data).as_bytes =
      some (u32ToBeBytes data.length ++ ct.bytes ++ data ++
        u32ToBeBytes (crc32 (ct.bytes ++ data))) := by
    simp [Chunk.new, Chunk.as_bytes, Chunk.length, Chunk.crc, hlen_le]
  refine ⟨by rw [hbytes_eq]; rfl, ?_⟩
  intro bs hbs
  rw [hbytes_eq] at hbs
  obtain rfl := (Option.some.injEq _ _).mp hbs
  rw [show u32ToBeBytes data.length =
    [data.length / 16777216 % 256, data.length / 65536 % 256,
     data.length / 256 % 256, data.length % 256] from rfl]
  rw [tryFrom_concat _ _ _ _ ct.bytes data _ rfl (u32ToBeBytes_length _)
    (u32FromBeBytes_toBe data.length (by omega)) hbound]
  have hct : ChunkType.tryFromBytes ct.bytes = Except.ok ct := by
    show ChunkType.tryFromBytes [ct.c0, ct.c1, ct.c2, ct.c3] = Except.ok ct
    rw [ChunkType.tryFromBytes, if_pos (by simp [h0, h1, h2, h3])]
  simp only [hct]
  rw [if_neg]
  · rfl
  · intro hne
    apply hne
    rw [u32FromBeBytes_toBe _ (crc32_lt _ hmem)]
    rfl

set_option maxRecDepth 100000 in
/-- C1 witness: the round trip evaluated on the concrete test chunk. -/
theorem C1_witness :
    Chunk.tryFrom goodChunkBytes =
      ParseResult.ok (Chunk.new ruStType secretMessage) :=
  (C1_round_trip ruStType secretMessage (by decide) (by decide)
    (by decide)).2 goodChunkBytes (by decide)


/-- C6 (amended): flipping any single bit (byte index `k`, bit `j`) in the
length field, type-code field, or data region of a valid serialized chunk
makes `Chunk::try_from` fail: with the crc-mismatch error when the flip
lands in the type or data bytes and the type still parses, and with a panic
when the flip lands in the length field or produces a non-alphabetic type
byte.  Parsing never succeeds with altered content.  (The claim as stated
promises a CrcMismatch-or-Truncated error return; the source panics
instead of returning a Truncated error.) -/
theorem C6_bit_flip (ct : ChunkType) (data bs : List Nat) (k j : Nat)
    (halpha : ct.bytes.all isAsciiAlphabetic = true)
    (hdata : ∀ b ∈ data, b < 256)
    (hbound : data.length ≤ 2 ^ 32 - 9)
    (hbs : (Chunk.new ct data).as_bytes = some bs)
    (hk : k < 8 + data.length) (hj : j < 8) :
    Chunk.tryFrom (flipBit bs k j) = ParseResult.crcMismatch ∨
    Chunk.tryFrom (flipBit bs k j) = ParseResult.panic := by
  have hlen_le : data.length ≤ u32Max := by
    show data.length ≤ 4294967295
    omega
  have halpha4 : isAsciiAlphabetic ct.c0 = true ∧
      isAsciiAlphabetic ct.c1 = true ∧ isAsciiAlphabetic ct.c2 = true ∧
      isAsciiAlphabetic ct.c3 = true := by
    simpa [ChunkType.bytes, List.all_cons] using halpha
  have hmem : ∀ b ∈ ct.bytes ++ data, b < 256 := by
    intro b hb
    rcases List.mem_append.mp hb with hb | hb
    · simp [ChunkType.bytes] at hb
      rcases hb with rfl | rfl | rfl | rfl
      · exact alpha_lt_256 _ halpha4.1
      · exact alpha_lt_256 _ halpha4.2.1
      · exact alpha_lt_256 _ halpha4.2.2.1
      · exact alpha_lt_256 _ halpha4.2.2.2
    · exact hdata b hb
  have hbytes_eq : (Chunk.new ct data).as_bytes =
      some (u32ToBeBytes data.length ++ ct.bytes ++ data ++
        u32ToBeBytes (crc32 (ct.bytes ++ data))) := by
    simp [Chunk.new, Chunk.as_bytes, Chunk.length, Chunk.crc, hlen_le]
  rw [hbytes_eq] at hbs
  obtain rfl := (Option.some.injEq _ _).mp hbs
  have hcbval : u32FromBeBytes (u32ToBeBytes (crc32 (ct.bytes ++ data))) =
      crc32 (ct.bytes ++ data) :=
    u32FromBeBytes_toBe _ (crc32_lt _ hmem)
  rw [show u32ToBeBytes data.length = [data.length / 16777216 % 256,
    data.length / 65536 % 256, data.length / 256 % 256, data.length % 256]
    from rfl]
  have hlen : u32FromBeBytes [data.length / 16777216 % 256,
      data.length / 65536 % 256, data.length / 256 % 256,
      data.length % 256] = data.length :=
    u32FromBeBytes_toBe data.length (by omega)
  rcases Nat.lt_or_ge k 4 with hk4 | hk4
  · right
    exact tryFrom_flip_len _ _ _ _ ct.bytes data _ rfl
      (u32ToBeBytes_length _) (by omega) (by omega) (by omega) (by omega)
      hlen k j hk4 hj
  · rcases Nat.lt_or_ge k 8 with hk8 | hk8
    · have hflip : flipBit ([data.length / 16777216 % 256,
          data.length / 65536 % 256, data.length / 256 % 256,
          data.length % 256] ++ ct.bytes ++ data ++
          u32ToBeBytes (crc32 (ct.bytes ++ data))) k j =
          [data.length / 16777216 % 256, data.length / 65536 % 256,
            data.length / 256 % 256, data.length % 256] ++
            flipBit ct.bytes (k - 4) j ++ data ++
            u32ToBeBytes (crc32 (ct.bytes ++ data)) := by
        rw [flipBit_append_left _ _ k j (by
            simp only [List.length_append, List.length_cons,
              List.length_nil, ChunkType.bytes]
            omega),
          flipBit_append_left _ data k j (by
            simp only [List.length_append, List.length_cons,
              List.length_nil, ChunkType.bytes]
            omega),
          flipBit_append_right4 _ ct.bytes k j (by
            simp only [List.length_cons, List.length_nil]) hk4]
      rw [hflip]
      exact tryFrom_flip_type _ _ _ _ ct data _
        (u32ToBeBytes_length _) hlen hbound hcbval (k - 4) j (by omega) hj
    · have hflip : flipBit ([data.length / 16777216 % 256,
          data.length / 65536 % 256, data.length / 256 % 256,
          data.length % 256] ++ ct.bytes ++ data ++
          u32ToBeBytes (crc32 (ct.bytes ++ data))) k j =
          [data.length / 16777216 % 256, data.length / 65536 % 256,
            data.length / 256 % 256, data.length % 256] ++ ct.bytes ++
            flipBit data (k - 8) j ++
            u32ToBeBytes (crc32 (ct.bytes ++ data)) := by
        rw [flipBit_append_left _ _ k j (by
            simp only [List.length_append, List.length_cons,
              List.length_nil, ChunkType.bytes]
            omega),
          flipBit_append_right8 _ data k j (by
            simp only [List.length_append, List.length_cons,
              List.length_nil, ChunkType.bytes]) hk8]
      rw [hflip]
      left
      exact tryFrom_flip_data _ _ _ _ ct data _
        (u32ToBeBytes_length _) halpha hlen hbound hcbval (k - 8) j
        (by omega) hj

set_option maxRecDepth 100000 in
/-- C6 witness: the sensitivity theorem applied to the concrete test chunk,
flipping bit 0 of byte 3 (the low length byte). -/
theorem C6_witness :
    Chunk.tryFrom (flipBit goodChunkBytes 3 0) = ParseResult.crcMismatch ∨
    Chunk.tryFrom (flipBit goodChunkBytes 3 0) = ParseResult.panic :=
  C6_bit_flip ruStType secretMessage goodChunkBytes 3 0 (by decide)
    (by decide) (by decide) (by decide) (by decide) (by decide)

set_option maxRecDepth 100000 in
/-- C6 counterexample: the concrete test chunk parses successfully, yet
flipping one bit of its length field (byte 3, bit 0, turning the declared
length 42 into 43) makes parsing panic — there is no Truncated (or any)
error return, contrary to the claim as stated. -/
theorem C6_counterexample :
    Chunk.tryFrom goodChunkBytes =
      ParseResult.ok (Chunk.mk ruStType secretMessage) ∧
    Chunk.tryFrom (flipBit goodChunkBytes 3 0) = ParseResult.panic := by
  decide

/-- Serialization of a chunk whose data payload has exactly `2 ^ 32 - 1`
bytes: `length()` still fits in a `u32`, so `as_bytes` succeeds. -/
theorem as_bytes_max_len (D : List Nat) (hlenD : D.length = 2 ^ 32 - 1) :
    (Chunk.new ruStType D).as_bytes =
      some (u32ToBeBytes (2 ^ 32 - 1) ++ ruStType.bytes ++ D ++
        u32ToBeBytes (crc32 (ruStType.bytes ++ D))) := by
  have hle : D.length ≤ u32Max := by
    rw [hlenD]
    show 2 ^ 32 - 1 ≤ 4294967295
    omega
  have h1 : (Chunk.new ruStType D).length = some D.length := by
    show (if D.length ≤ u32Max then some D.length else none) = some D.length
    rw [if_pos hle]
  simp only [Chunk.as_bytes, h1, hlenD]
  rfl

set_option maxRecDepth 100000 in
/-- C1 counterexample: for the chunk with type "RuSt" and a data payload of
`2 ^ 32 - 1` zero bytes — a length that fits in a `u32`, as the claim
requires — serialization succeeds, but parsing the serialized bytes panics:
the parser computes `8 + data_len` in `u32` arithmetic, which wraps to 7,
inverting the data-slice bounds. -/
theorem C1_counterexample :
    (Chunk.new ruStType (List.replicate (2 ^ 32 - 1) 0)).as_bytes =
      some (u32ToBeBytes (2 ^ 32 - 1) ++ ruStType.bytes ++
        List.replicate (2 ^ 32 - 1) 0 ++
        u32ToBeBytes (crc32 (ruStType.bytes ++
          List.replicate (2 ^ 32 - 1) 0))) ∧
    Chunk.tryFrom (u32ToBeBytes (2 ^ 32 - 1) ++ ruStType.bytes ++
        List.replicate (2 ^ 32 - 1) 0 ++
        u32ToBeBytes (crc32 (ruStType.bytes ++
          List.replicate (2 ^ 32 - 1) 0))) = ParseResult.panic := by
  constructor
  · exact as_bytes_max_len _ (List.length_replicate _ _)
  · rw [show u32ToBeBytes (2 ^ 32 - 1) = [255, 255, 255, 255] from by decide]
    exact tryFrom_overflow 255 255 255 255 ruStType.bytes _ _ rfl
      (by decide) (by decide)

end Pngme
